import Mathlib

/--
Shallow embedding of the zero-shot stance-classification logic of the
repository notebooks.  The embedded code is the function classify_text of
classify_policy_stance.ipynb together with the sklearn cosine-similarity
computation it calls, and the self-similarity matrix of the embeddings demo
notebook.  Vectors of floats are modelled as lists of real numbers; Python
exceptions are modelled with an explicit error type and the Except monad.
-/
def embeddingModelName : String := "all-MiniLM-L6-v2"

open Classical

/--
Error identities.  The notebook code itself only ever raises the Python
ValueError (from sklearn dimension checks and from max over an empty
sequence).  The remaining constructors are the error names proposed by the
specification for the designed similarity engine; they are present so that
claims stated in terms of those names can be expressed and compared with
what the code actually produces.
-/
inductive Err where
  | valueError : Err
  | degenerateInputError : Err
  | dimensionMismatchError : Err
  | emptyAnchorSetError : Err
  | configurationError : Err
deriving DecidableEq, Repr

/--
A Python float value as it flows through classify_text: either an ordinary
number or the IEEE NaN produced by np.mean on an empty list.  Ordinary
numbers are idealised as real numbers.
-/
inductive Val where
  | num : ℝ → Val
  | nan : Val

/--
IEEE comparison used by the Python builtin max: strictly greater, and every
comparison involving NaN is false.
-/
def Val.gt : Val → Val → Prop
  | Val.num a, Val.num b => b < a
  | _, _ => False

noncomputable instance (a b : Val) : Decidable (Val.gt a b) :=
  Classical.propDecidable _

/-- Dot product of two vectors, truncating at the shorter length. -/
noncomputable def dot (a b : List ℝ) : ℝ :=
  (List.zipWith (fun x y => x * y) a b).sum

/-- Euclidean norm of a vector. -/
noncomputable def l2norm (a : List ℝ) : ℝ :=
  Real.sqrt (dot a a)

/--
Row normalisation as performed by sklearn normalize inside
cosine_similarity: each component is divided by the Euclidean norm of the
row, except that a zero norm is replaced by one, so a zero row is left as
the zero row rather than raising an error.
-/
noncomputable def sknormalize (a : List ℝ) : List ℝ :=
  a.map fun x => x / (if l2norm a = 0 then 1 else l2norm a)

/--
The scalar cosine-similarity value sklearn computes for a pair of
equal-dimension rows: normalise each row, then take the dot product.
-/
noncomputable def cos_sim (a b : List ℝ) : ℝ :=
  dot (sknormalize a) (sknormalize b)

/--
sklearn cosine_similarity on a pair of single-row inputs, as called by
classify_text.  The pairwise-array check raises the Python ValueError when
the two rows do not share the same number of features; otherwise the scalar
similarity is returned.  A zero row is not an error (see sknormalize).
-/
noncomputable def cosine_similarity_exc (a b : List ℝ) : Except Err ℝ :=
  if a.length = b.length then Except.ok (cos_sim a b) else Except.error Err.valueError

/--
np.mean on a Python list of floats: the sum divided by the length, and the
IEEE NaN (with a runtime warning) when the list is empty.
-/
noncomputable def npMean : List ℝ → Val
  | [] => Val.nan
  | x :: xs => Val.num ((x :: xs).sum / ((x :: xs).length : ℝ))

/--
The list comprehension inside classify_text: one cosine similarity between
the query vector and the embedding of each example text of one label, in
order, propagating any exception.
-/
noncomputable def labelSims (get_embedding : String → List ℝ) (text_vec : List ℝ) :
    List String → Except Err (List ℝ)
  | [] => Except.ok []
  | ex :: rest => do
      let s ← cosine_similarity_exc text_vec (get_embedding ex)
      let others ← labelSims get_embedding text_vec rest
      pure (s :: others)

/--
The scores dict built by the for-loop of classify_text: one entry per label
of the anchors dict, in insertion order, holding np.mean of the per-example
similarities of that label.
-/
noncomputable def buildScores (get_embedding : String → List ℝ) (text_vec : List ℝ) :
    List (String × List String) → Except Err (List (String × Val))
  | [] => Except.ok []
  | (label, examples) :: rest => do
      let sims ← labelSims get_embedding text_vec examples
      let others ← buildScores get_embedding text_vec rest
      pure ((label, npMean sims) :: others)

/--
The accumulator loop of the Python builtin max: the current best is
replaced exactly when a later item compares strictly greater, so on ties
the earliest item is kept.
-/
noncomputable def pyGo (cur : String) (curv : Val) : List (String × Val) → String
  | [] => cur
  | (l, v) :: rest => if Val.gt v curv then pyGo l v rest else pyGo cur curv rest

/--
The Python expression max(scores, key=scores.get) over the scores dict in
insertion order: raises the Python ValueError on an empty dict, otherwise
folds with pyGo starting from the first entry.
-/
noncomputable def pyMaxKey : List (String × Val) → Except Err String
  | [] => Except.error Err.valueError
  | (l, v) :: rest => Except.ok (pyGo l v rest)

/--
classify_text of classify_policy_stance.ipynb.  The sentence-transformer
model.encode is abstracted as the function get_embedding from texts to
vectors; the anchors dict is an association list in insertion order from
label to example texts.  Returns the predicted label together with the full
scores mapping, or the Python exception raised on the way.
-/
noncomputable def classify_text (get_embedding : String → List ℝ) (text : String)
    (anchors : List (String × List String)) :
    Except Err (String × List (String × Val)) := do
  let text_vec := get_embedding text
  let scores ← buildScores get_embedding text_vec anchors
  let pred ← pyMaxKey scores
  pure (pred, scores)

/--
The self-similarity matrix of the embeddings demo notebook:
cosine_similarity applied to one rectangular array of row vectors, giving
entry (i, j) = cos_sim of row i and row j.
-/
noncomputable def similarity_matrix (X : List (List ℝ)) : List (List ℝ) :=
  X.map fun r => X.map fun c => cos_sim r c

/--
Specification-side description of the aggregate scores (section 4 of the
spec): for each label, the arithmetic mean of the cosine similarities
between the query vector and the embeddings of the examples of that label,
keyed in the declared order of the anchor set.
-/
noncomputable def specMeanScores (get_embedding : String → List ℝ) (q : List ℝ)
    (anchors : List (String × List String)) : List (String × ℝ) :=
  anchors.map fun p =>
    (p.1, (p.2.map fun ex => cos_sim q (get_embedding ex)).sum / ((p.2.length : ℝ)))

/-- Maximum of a running bound and the score components of a list. -/
noncomputable def listMax (c : ℝ) : List (String × ℝ) → ℝ
  | [] => c
  | p :: rest => listMax (max c p.2) rest

/-- Maximum score of a nonempty label-score list (zero on the empty list). -/
noncomputable def scoresMax : List (String × ℝ) → ℝ
  | [] => 0
  | p :: rest => listMax p.2 rest

/-- A label string used for concrete instances, first in the anchors dict of the notebook. -/
def egLabelA : String := "Supportive"

/-- A second label string used for concrete instances. -/
def egLabelB : String := "Opposed"

/-- An anchor example text from the notebook. -/
def egExampleA : String := "The policy is necessary to reduce emissions"

/-- A second anchor example text from the notebook. -/
def egExampleB : String := "We should not enforce such rules"

/-- A query text from the notebook. -/
def egText : String := "This policy will help the environment"

/-- A trivial embedding provider for concrete instances: every text embeds to the unit vector of dimension one. -/
noncomputable def egEmbed : String → List ℝ := fun _ => [1]

/-- A concrete two-label anchors dict in insertion order. -/
def egAnchors : List (String × List String) :=
  [(egLabelA, [egExampleA]), (egLabelB, [egExampleB])]

/-- The dot product against an empty right factor is zero. -/
lemma dot_nil_right (a : List ℝ) : dot a [] = 0 := by
  cases a <;> simp [dot]

/-- The dot product with an empty left factor is zero. -/
lemma dot_nil_left (b : List ℝ) : dot [] b = 0 := by
  simp [dot]

/-- Unfolding the dot product on two cons cells. -/
lemma dot_cons (x y : ℝ) (xs ys : List ℝ) :
    dot (x :: xs) (y :: ys) = x * y + dot xs ys := by
  simp [dot]

/-- The dot product of a vector with itself is nonnegative. -/
lemma dot_self_nonneg (a : List ℝ) : 0 ≤ dot a a := by
  induction a with
  | nil => simp [dot]
  | cons x xs ih =>
      rw [dot_cons]
      nlinarith [mul_self_nonneg x]

/-- The dot product of a nonzero vector with itself is positive. -/
lemma dot_self_pos (a : List ℝ) (ha : ∃ x ∈ a, x ≠ 0) : 0 < dot a a := by
  induction a with
  | nil => simp at ha
  | cons x xs ih =>
      rw [dot_cons]
      rcases ha with ⟨y, hy, hy0⟩
      rcases List.mem_cons.mp hy with h | h
      · subst h
        nlinarith [dot_self_nonneg xs, mul_self_nonneg y, (mul_self_pos).mpr hy0]
      · have := ih ⟨y, h, hy0⟩
        nlinarith [mul_self_nonneg x]

/-- Dividing both factors componentwise divides the dot product. -/
lemma dot_map_div (a : List ℝ) : ∀ (b : List ℝ) (N M : ℝ),
    dot (a.map fun x => x / N) (b.map fun x => x / M) = dot a b / (N * M) := by
  induction a with
  | nil => intro b N M; simp [dot]
  | cons x xs ih =>
      intro b N M
      cases b with
      | nil => simp [dot]
      | cons y ys =>
          simp only [List.map_cons, dot_cons, ih]
          rw [div_mul_div_comm, div_add_div_same]

/-- A vector whose components are all zero has zero dot product. -/
lemma dot_zero_left (a : List ℝ) : ∀ (b : List ℝ), (∀ x ∈ a, x = 0) → dot a b = 0 := by
  induction a with
  | nil => intro b _; simp [dot]
  | cons x xs ih =>
      intro b h
      cases b with
      | nil => simp [dot]
      | cons y ys =>
          rw [dot_cons, h x (List.mem_cons_self x xs), ih ys fun z hz => h z (List.mem_cons_of_mem x hz)]
          ring

/-- A right factor whose components are all zero gives zero dot product. -/
lemma dot_zero_right (a : List ℝ) : ∀ (b : List ℝ), (∀ x ∈ b, x = 0) → dot a b = 0 := by
  induction a with
  | nil => intro b _; simp [dot]
  | cons x xs ih =>
      intro b h
      cases b with
      | nil => simp [dot]
      | cons y ys =>
          rw [dot_cons, h y (List.mem_cons_self y ys), ih ys fun z hz => h z (List.mem_cons_of_mem y hz)]
          ring

/-- Cauchy-Schwarz for the list dot product. -/
lemma dot_sq_le (a : List ℝ) : ∀ b : List ℝ, (dot a b) ^ 2 ≤ dot a a * dot b b := by
  induction a with
  | nil =>
      intro b
      simp [dot_nil_left]
  | cons x xs ih =>
      intro b
      cases b with
      | nil =>
          simp [dot_nil_right]
      | cons y ys =>
          have hA : 0 ≤ dot xs xs := dot_self_nonneg xs
          have hB : 0 ≤ dot ys ys := dot_self_nonneg ys
          have hIH : (dot xs ys) ^ 2 ≤ dot xs xs * dot ys ys := ih ys
          rw [dot_cons, dot_cons, dot_cons]
          rcases eq_or_lt_of_le hA with hA0 | hApos
          · have hS : dot xs ys = 0 := by nlinarith
            rw [hS, ← hA0]
            nlinarith [mul_self_nonneg x, mul_self_nonneg y, mul_nonneg (mul_self_nonneg x) hB]
          · have key : 0 ≤ (dot xs xs * dot ys ys - (dot xs ys) ^ 2) * (x * x + dot xs xs) := by
              apply mul_nonneg (by linarith)
              nlinarith [mul_self_nonneg x]
            nlinarith [sq_nonneg (x * dot xs ys - y * dot xs xs), hApos]

/-- For a nonzero vector the stored norm is positive. -/
lemma l2norm_pos (a : List ℝ) (ha : ∃ x ∈ a, x ≠ 0) : 0 < l2norm a := by
  unfold l2norm
  exact Real.sqrt_pos.mpr (dot_self_pos a ha)

/-- On a nonzero vector, sknormalize divides by the actual norm. -/
lemma sknormalize_of_nonzero (a : List ℝ) (ha : ∃ x ∈ a, x ≠ 0) :
    sknormalize a = a.map fun x => x / l2norm a := by
  unfold sknormalize
  rw [if_neg (ne_of_gt (l2norm_pos a ha))]

/-- Cosine similarity of a pair of nonzero vectors as a quotient of the dot product. -/
lemma cos_sim_eq_div (a b : List ℝ) (ha : ∃ x ∈ a, x ≠ 0) (hb : ∃ x ∈ b, x ≠ 0) :
    cos_sim a b = dot a b / (l2norm a * l2norm b) := by
  unfold cos_sim
  rw [sknormalize_of_nonzero a ha, sknormalize_of_nonzero b hb, dot_map_div]

/-- Self-similarity of a nonzero vector is exactly one. -/
lemma cos_sim_self (a : List ℝ) (ha : ∃ x ∈ a, x ≠ 0) : cos_sim a a = 1 := by
  rw [cos_sim_eq_div a a ha ha]
  have hpos := dot_self_pos a ha
  unfold l2norm
  rw [Real.mul_self_sqrt (le_of_lt hpos)]
  exact div_self (ne_of_gt hpos)

/-- Cosine similarity of nonzero vectors lies in the closed interval from minus one to one. -/
lemma cos_sim_bound (a b : List ℝ) (ha : ∃ x ∈ a, x ≠ 0) (hb : ∃ x ∈ b, x ≠ 0) :
    -1 ≤ cos_sim a b ∧ cos_sim a b ≤ 1 := by
  have hA := dot_self_pos a ha
  have hB := dot_self_pos b hb
  have hsq : (cos_sim a b) ^ 2 ≤ 1 := by
    rw [cos_sim_eq_div a b ha hb, div_pow, mul_pow]
    unfold l2norm
    rw [Real.sq_sqrt (le_of_lt hA), Real.sq_sqrt (le_of_lt hB)]
    rw [div_le_one (by positivity)]
    exact dot_sq_le a b
  constructor
  · nlinarith [sq_nonneg (cos_sim a b + 1)]
  · nlinarith [sq_nonneg (cos_sim a b - 1)]

/-- A sum of list elements bounded above by one is at most the length. -/
lemma list_sum_le_length (l : List ℝ) (h : ∀ x ∈ l, x ≤ 1) : l.sum ≤ (l.length : ℝ) := by
  induction l with
  | nil => simp
  | cons x xs ih =>
      simp only [List.sum_cons, List.length_cons]
      push_cast
      have h1 : x ≤ 1 := h x (List.mem_cons_self x xs)
      have h2 : xs.sum ≤ (xs.length : ℝ) := ih fun z hz => h z (List.mem_cons_of_mem x hz)
      linarith

/-- A sum of list elements bounded below by minus one is at least minus the length. -/
lemma list_neg_length_le_sum (l : List ℝ) (h : ∀ x ∈ l, -1 ≤ x) :
    -(l.length : ℝ) ≤ l.sum := by
  induction l with
  | nil => simp
  | cons x xs ih =>
      simp only [List.sum_cons, List.length_cons]
      push_cast
      have h1 : -1 ≤ x := h x (List.mem_cons_self x xs)
      have h2 : -(xs.length : ℝ) ≤ xs.sum := ih fun z hz => h z (List.mem_cons_of_mem x hz)
      linarith

/-- The arithmetic mean of a nonempty list of values in the unit interval band stays in it. -/
lemma mean_bound (l : List ℝ) (hne : l ≠ []) (h : ∀ x ∈ l, -1 ≤ x ∧ x ≤ 1) :
    -1 ≤ l.sum / (l.length : ℝ) ∧ l.sum / (l.length : ℝ) ≤ 1 := by
  have hlen : 0 < (l.length : ℝ) := by
    have := List.length_pos.mpr hne
    exact_mod_cast this
  constructor
  · rw [le_div_iff₀ hlen]
    have := list_neg_length_le_sum l fun x hx => (h x hx).1
    linarith
  · rw [div_le_one hlen]
    exact list_sum_le_length l fun x hx => (h x hx).2

/-- When every example embedding matches the query dimension, the similarity list succeeds. -/
lemma labelSims_ok (ge : String → List ℝ) (q : List ℝ) :
    ∀ examples : List String, (∀ ex ∈ examples, (ge ex).length = q.length) →
      labelSims ge q examples = Except.ok (examples.map fun ex => cos_sim q (ge ex)) := by
  intro examples
  induction examples with
  | nil => intro _; rfl
  | cons ex rest ih =>
      intro h
      have hlen : q.length = (ge ex).length := (h ex (List.mem_cons_self ex rest)).symm
      have hrest := ih fun z hz => h z (List.mem_cons_of_mem ex hz)
      simp only [labelSims, cosine_similarity_exc, if_pos hlen, hrest]
      rfl

/-- When all dimensions agree, the scores dict is exactly one mean per label in order. -/
lemma buildScores_ok (ge : String → List ℝ) (q : List ℝ) :
    ∀ anchors : List (String × List String),
      (∀ p ∈ anchors, ∀ ex ∈ p.2, (ge ex).length = q.length) →
      buildScores ge q anchors =
        Except.ok (anchors.map fun p => (p.1, npMean (p.2.map fun ex => cos_sim q (ge ex)))) := by
  intro anchors
  induction anchors with
  | nil => intro _; rfl
  | cons p rest ih =>
      intro h
      obtain ⟨label, examples⟩ := p
      have hsims := labelSims_ok ge q examples fun ex hx =>
        h (label, examples) (List.mem_cons_self _ rest) ex hx
      have hrest := ih fun z hz ex hx => h z (List.mem_cons_of_mem _ hz) ex hx
      simp only [buildScores, hsims, hrest]
      rfl

/-- Under the per-label nonemptiness hypothesis the scores dict equals the spec means. -/
lemma scores_eq_spec (ge : String → List ℝ) (q : List ℝ)
    (anchors : List (String × List String)) (hex : ∀ p ∈ anchors, p.2 ≠ []) :
    (anchors.map fun p => (p.1, npMean (p.2.map fun ex => cos_sim q (ge ex)))) =
      (specMeanScores ge q anchors).map fun p => (p.1, Val.num p.2) := by
  unfold specMeanScores
  rw [List.map_map]
  apply List.map_congr_left
  intro p hp
  obtain ⟨label, examples⟩ := p
  cases examples with
  | nil => exact absurd rfl (hex (label, []) hp)
  | cons e es =>
      simp only [Function.comp, List.map_cons, npMean, List.length_cons, List.length_map]

/-- The running bound never exceeds the running maximum. -/
lemma le_listMax : ∀ (raw : List (String × ℝ)) (c : ℝ), c ≤ listMax c raw := by
  intro raw
  induction raw with
  | nil => intro c; simp [listMax]
  | cons p rest ih =>
      intro c
      exact le_trans (le_max_left c p.2) (ih (max c p.2))

/-- Every score in the list is bounded by the running maximum. -/
lemma listMax_ub : ∀ (raw : List (String × ℝ)) (c : ℝ) (p : (String × ℝ)), p ∈ raw →
    p.2 ≤ listMax c raw := by
  intro raw
  induction raw with
  | nil => intro c p hp; simp at hp
  | cons q rest ih =>
      intro c p hp
      rcases List.mem_cons.mp hp with h | h
      · subst h
        exact le_trans (le_max_right c p.2) (le_listMax rest (max c p.2))
      · exact ih (max c q.2) p h

/--
The Python max loop over an all-numeric score list returns the label of the
first entry attaining the maximum value: the combined list splits around
that entry, with everything before it strictly below the maximum.
-/
lemma pyGo_firstMax : ∀ (raw : List (String × ℝ)) (cur : String) (curv : ℝ),
    ∃ pre post,
      (cur, curv) :: raw =
        pre ++ (pyGo cur (Val.num curv) (raw.map fun p => (p.1, Val.num p.2)),
          listMax curv raw) :: post ∧
      ∀ p ∈ pre, p.2 < listMax curv raw := by
  intro raw
  induction raw with
  | nil =>
      intro cur curv
      exact ⟨[], [], by simp [pyGo, listMax], by simp⟩
  | cons q rest ih =>
      intro cur curv
      obtain ⟨l, x⟩ := q
      simp only [List.map_cons, pyGo, listMax]
      by_cases hx : curv < x
      · have hgt : Val.gt (Val.num x) (Val.num curv) := hx
        rw [if_pos hgt, max_eq_right (le_of_lt hx)]
        obtain ⟨pre, post, hsplit, hpre⟩ := ih l x
        refine ⟨(cur, curv) :: pre, post, ?_, ?_⟩
        · rw [List.cons_append, ← hsplit]
        · intro p hp
          rcases List.mem_cons.mp hp with h | h
          · subst h
            exact lt_of_lt_of_le hx (le_listMax rest x)
          · exact hpre p h
      · have hngt : ¬ Val.gt (Val.num x) (Val.num curv) := hx
        have hxle : x ≤ curv := le_of_not_lt hx
        rw [if_neg hngt, max_eq_left hxle]
        obtain ⟨pre, post, hsplit, hpre⟩ := ih cur curv
        cases pre with
        | nil =>
            simp only [List.nil_append] at hsplit
            have hhead := List.head_eq_of_cons_eq hsplit
            have htail := List.tail_eq_of_cons_eq hsplit
            refine ⟨[], (l, x) :: rest, ?_, by simp⟩
            rw [List.nil_append, ← hhead]
        | cons p0 pre2 =>
            simp only [List.cons_append] at hsplit
            have hhead := List.head_eq_of_cons_eq hsplit
            have htail := List.tail_eq_of_cons_eq hsplit
            refine ⟨(cur, curv) :: (l, x) :: pre2, post, ?_, ?_⟩
            · rw [List.cons_append, List.cons_append, ← htail]
            · intro p hp
              have hcurv : curv < listMax curv rest := by
                have := hpre p0 (List.mem_cons_self p0 pre2)
                rw [← hhead] at this
                exact this
              rcases List.mem_cons.mp hp with h | h
              · subst h; exact hcurv
              · rcases List.mem_cons.mp h with h2 | h2
                · subst h2
                  exact lt_of_le_of_lt hxle hcurv
                · exact hpre p (List.mem_cons_of_mem p0 h2)

/-- Bind on a successful Except value reduces to the continuation. -/
lemma exceptBind_ok {α β : Type} (a : α) (f : α → Except Err β) :
    (Except.ok a : Except Err α) >>= f = f a := rfl

/--
Characterisation of a successful classify_text run: with a nonempty anchors
dict, at least one example per label and matching dimensions, the call
returns the spec mean scores (numerically tagged) together with the label
of the first entry attaining the maximal aggregate score.
-/
lemma classify_ok_spec (ge : String → List ℝ) (text : String)
    (anchors : List (String × List String)) (hne : anchors ≠ [])
    (hex : ∀ p ∈ anchors, p.2 ≠ [])
    (hdim : ∀ p ∈ anchors, ∀ ex ∈ p.2, (ge ex).length = (ge text).length) :
    ∃ pred pre post,
      classify_text ge text anchors =
        Except.ok (pred, (specMeanScores ge (ge text) anchors).map fun p => (p.1, Val.num p.2)) ∧
      specMeanScores ge (ge text) anchors =
        pre ++ (pred, scoresMax (specMeanScores ge (ge text) anchors)) :: post ∧
      ∀ p ∈ pre, p.2 < scoresMax (specMeanScores ge (ge text) anchors) := by
  have hbs := buildScores_ok ge (ge text) anchors hdim
  have hsp := scores_eq_spec ge (ge text) anchors hex
  rcases hS : specMeanScores ge (ge text) anchors with _ | ⟨⟨l0, v0⟩, srest⟩
  · exfalso
    apply hne
    unfold specMeanScores at hS
    exact List.map_eq_nil_iff.mp hS
  · obtain ⟨pre, post, hsplit, hpre⟩ := pyGo_firstMax srest l0 v0
    refine ⟨pyGo l0 (Val.num v0) (srest.map fun p => (p.1, Val.num p.2)), pre, post, ?_, ?_, ?_⟩
    · show (buildScores ge (ge text) anchors >>= fun scores =>
          pyMaxKey scores >>= fun pred => pure (pred, scores)) = _
      rw [hbs, exceptBind_ok, hsp, hS]
      rfl
    · exact hsplit
    · intro p hp
      exact hpre p hp

/-- Every score of a label-score list is bounded by its maximum. -/
lemma scoresMax_ub (S : List (String × ℝ)) (p : String × ℝ) (hp : p ∈ S) :
    p.2 ≤ scoresMax S := by
  cases S with
  | nil => simp at hp
  | cons s rest =>
      rcases List.mem_cons.mp hp with h | h
      · subst h
        exact le_listMax rest p.2
      · exact listMax_ub rest s.2 p h

/--
Success shape of classify_text: with a nonempty anchors dict and matching
dimensions (no nonemptiness demanded of the per-label example lists), the
call succeeds and returns the score entries of the for-loop.
-/
lemma classify_ok_shape (ge : String → List ℝ) (text : String)
    (anchors : List (String × List String)) (hne : anchors ≠ [])
    (hdim : ∀ p ∈ anchors, ∀ ex ∈ p.2, (ge ex).length = (ge text).length) :
    ∃ pred, classify_text ge text anchors =
      Except.ok (pred, anchors.map fun p =>
        (p.1, npMean (p.2.map fun ex => cos_sim (ge text) (ge ex)))) := by
  cases anchors with
  | nil => exact absurd rfl hne
  | cons a0 arest =>
      obtain ⟨l0, exs0⟩ := a0
      have hbs := buildScores_ok ge (ge text) ((l0, exs0) :: arest) hdim
      refine ⟨pyGo l0 (npMean (exs0.map fun ex => cos_sim (ge text) (ge ex)))
        (arest.map fun p => (p.1, npMean (p.2.map fun ex => cos_sim (ge text) (ge ex)))), ?_⟩
      show (buildScores ge (ge text) ((l0, exs0) :: arest) >>= fun scores =>
          pyMaxKey scores >>= fun pred => pure (pred, scores)) = _
      rw [hbs, exceptBind_ok]
      rfl

/-- The cosine similarity against an all-zero left input is zero. -/
lemma cos_sim_zero_left (a b : List ℝ) (h : ∀ x ∈ a, x = 0) : cos_sim a b = 0 := by
  unfold cos_sim
  apply dot_zero_left
  intro x hx
  simp only [sknormalize, List.mem_map] at hx
  obtain ⟨y, hy, hxy⟩ := hx
  rw [← hxy, h y hy, zero_div]

/-- The cosine similarity against an all-zero right input is zero. -/
lemma cos_sim_zero_right (a b : List ℝ) (h : ∀ x ∈ b, x = 0) : cos_sim a b = 0 := by
  unfold cos_sim
  apply dot_zero_right
  intro x hx
  simp only [sknormalize, List.mem_map] at hx
  obtain ⟨y, hy, hxy⟩ := hx
  rw [← hxy, h y hy, zero_div]

/-- The spec mean scores of the concrete two-label instance: both labels score one. -/
lemma egSpecScores : specMeanScores egEmbed (egEmbed egText) egAnchors =
    [(egLabelA, 1), (egLabelB, 1)] := by
  have h1 : cos_sim [(1 : ℝ)] [(1 : ℝ)] = 1 :=
    cos_sim_self _ ⟨1, List.mem_singleton_self 1, one_ne_zero⟩
  simp [specMeanScores, egAnchors, egEmbed, h1]

/-- The maximal aggregate score of the concrete two-label instance is one. -/
lemma egScoresMax : scoresMax [(egLabelA, (1 : ℝ)), (egLabelB, 1)] = 1 := by
  simp [scoresMax, listMax]

/--
Claim C1: for every query embedding and every anchor set with at least one
label, each label having at least one example embedding of the dimension of
the query, classify computes each aggregate score of a label as the
arithmetic mean of the cosine similarities between the query and the
example embeddings of that label, and returns both a label attaining the
maximal aggregate score and the full mapping from every label to its
aggregate score.
-/
theorem claim1_classify_mean_and_argmax (ge : String → List ℝ) (text : String)
    (anchors : List (String × List String)) (hne : anchors ≠ [])
    (hex : ∀ p ∈ anchors, p.2 ≠ [])
    (hdim : ∀ p ∈ anchors, ∀ ex ∈ p.2, (ge ex).length = (ge text).length) :
    ∃ pred,
      classify_text ge text anchors =
        Except.ok (pred,
          (specMeanScores ge (ge text) anchors).map fun p => (p.1, Val.num p.2)) ∧
      ∃ M, (pred, M) ∈ specMeanScores ge (ge text) anchors ∧
        ∀ p ∈ specMeanScores ge (ge text) anchors, p.2 ≤ M := by
  obtain ⟨pred, pre, post, hrun, hsplit, hpre⟩ := classify_ok_spec ge text anchors hne hex hdim
  refine ⟨pred, hrun, scoresMax (specMeanScores ge (ge text) anchors), ?_, ?_⟩
  · have hmem : (pred, scoresMax (specMeanScores ge (ge text) anchors)) ∈
        pre ++ (pred, scoresMax (specMeanScores ge (ge text) anchors)) :: post :=
      List.mem_append_right pre (List.mem_cons_self _ _)
    rw [← hsplit] at hmem
    exact hmem
  · intro p hp
    exact scoresMax_ub _ p hp

/-- Concrete instance of claim C1 on the two-label anchors dict with a constant embedding provider. -/
theorem claim1_witness :
    ∃ pred,
      classify_text egEmbed egText egAnchors =
        Except.ok (pred,
          (specMeanScores egEmbed (egEmbed egText) egAnchors).map fun p => (p.1, Val.num p.2)) ∧
      ∃ M, (pred, M) ∈ specMeanScores egEmbed (egEmbed egText) egAnchors ∧
        ∀ p ∈ specMeanScores egEmbed (egEmbed egText) egAnchors, p.2 ≤ M :=
  claim1_classify_mean_and_argmax egEmbed egText egAnchors (by simp [egAnchors])
    (by simp [egAnchors]) (by simp [egEmbed])

/--
Claim C2: whenever two or more labels attain exactly the same maximal
aggregate score, classify returns the tied label whose key comes first in
the declared insertion order of the anchor set: the returned label sits at
the first position of the score list whose value equals the maximum, every
earlier entry scoring strictly less.
-/
theorem claim2_tie_break_insertion_order (ge : String → List ℝ) (text : String)
    (anchors : List (String × List String)) (hne : anchors ≠ [])
    (hex : ∀ p ∈ anchors, p.2 ≠ [])
    (hdim : ∀ p ∈ anchors, ∀ ex ∈ p.2, (ge ex).length = (ge text).length)
    (htie : ∃ p ∈ specMeanScores ge (ge text) anchors,
      ∃ q ∈ specMeanScores ge (ge text) anchors,
        p.1 ≠ q.1 ∧ p.2 = scoresMax (specMeanScores ge (ge text) anchors) ∧
          q.2 = scoresMax (specMeanScores ge (ge text) anchors)) :
    ∃ pred pre post,
      classify_text ge text anchors =
        Except.ok (pred,
          (specMeanScores ge (ge text) anchors).map fun p => (p.1, Val.num p.2)) ∧
      specMeanScores ge (ge text) anchors =
        pre ++ (pred, scoresMax (specMeanScores ge (ge text) anchors)) :: post ∧
      ∀ p ∈ pre, p.2 < scoresMax (specMeanScores ge (ge text) anchors) := by
  obtain ⟨pred, pre, post, h1, h2, h3⟩ := classify_ok_spec ge text anchors hne hex hdim
  exact ⟨pred, pre, post, h1, h2, h3⟩

/-- Concrete instance of claim C2: both labels of the two-label instance score one, and the split pins the winner to the first position. -/
theorem claim2_witness :
    ∃ pred pre post,
      classify_text egEmbed egText egAnchors =
        Except.ok (pred,
          (specMeanScores egEmbed (egEmbed egText) egAnchors).map fun p => (p.1, Val.num p.2)) ∧
      specMeanScores egEmbed (egEmbed egText) egAnchors =
        pre ++ (pred, scoresMax (specMeanScores egEmbed (egEmbed egText) egAnchors)) :: post ∧
      ∀ p ∈ pre, p.2 < scoresMax (specMeanScores egEmbed (egEmbed egText) egAnchors) :=
  claim2_tie_break_insertion_order egEmbed egText egAnchors (by simp [egAnchors])
    (by simp [egAnchors]) (by simp [egEmbed])
    (by
      rw [egSpecScores, egScoresMax]
      refine ⟨(egLabelA, 1), by simp, (egLabelB, 1), by simp, ?_, rfl, rfl⟩
      simp [egLabelA, egLabelB])

/--
Claim C8: classify is deterministic; two runs of classify_text on identical
inputs, with the embedding provider a fixed function of the text, produce
identical results.
-/
theorem claim8_deterministic (ge : String → List ℝ) (text : String)
    (anchors : List (String × List String))
    (r1 r2 : Except Err (String × List (String × Val)))
    (h1 : classify_text ge text anchors = r1)
    (h2 : classify_text ge text anchors = r2) : r1 = r2 :=
  h1.symm.trans h2

/-- Concrete instance of claim C8 on the two-label anchors dict. -/
theorem claim8_witness :
    classify_text egEmbed egText egAnchors = classify_text egEmbed egText egAnchors :=
  claim8_deterministic egEmbed egText egAnchors _ _ rfl rfl

/--
Claim C10: for an anchor set with at least one label (keys distinct, as
Python dict keys are) and matching dimensions, the returned score mapping
has exactly one entry per label, in the key order of the anchor set, with
no label added, dropped or duplicated.
-/
theorem claim10_one_score_per_label (ge : String → List ℝ) (text : String)
    (anchors : List (String × List String)) (hne : anchors ≠ [])
    (hdim : ∀ p ∈ anchors, ∀ ex ∈ p.2, (ge ex).length = (ge text).length)
    (hnodup : (anchors.map Prod.fst).Nodup) :
    ∃ pred scores, classify_text ge text anchors = Except.ok (pred, scores) ∧
      scores.map Prod.fst = anchors.map Prod.fst ∧
      (scores.map Prod.fst).Nodup := by
  obtain ⟨pred, hrun⟩ := classify_ok_shape ge text anchors hne hdim
  refine ⟨pred, _, hrun, ?_, ?_⟩
  · rw [List.map_map]
    rfl
  · rw [List.map_map]
    exact hnodup

/-- Concrete instance of claim C10 on the two-label anchors dict. -/
theorem claim10_witness :
    ∃ pred scores, classify_text egEmbed egText egAnchors = Except.ok (pred, scores) ∧
      scores.map Prod.fst = egAnchors.map Prod.fst ∧
      (scores.map Prod.fst).Nodup :=
  claim10_one_score_per_label egEmbed egText egAnchors (by simp [egAnchors])
    (by simp [egEmbed]) (by simp [egAnchors, egLabelA, egLabelB])

/--
Claim C4, counterexample: on the empty anchors dict, classify_text does
fail, but not with the EmptyAnchorSetError named by the specification; no
such error type exists in the notebook code.
-/
theorem claim4_counterexample :
    classify_text egEmbed egText [] ≠ Except.error Err.emptyAnchorSetError := by
  have h : classify_text egEmbed egText [] = Except.error Err.valueError := rfl
  rw [h]
  intro hc
  exact Err.noConfusion (Except.error.inj hc)

/--
Claim C4 (amended): for every query, classify applied to an empty anchor
set fails, with the Python ValueError raised by max over the empty scores
dict, and returns no partial result.
-/
theorem claim4_empty_anchors_fails (ge : String → List ℝ) (text : String) :
    classify_text ge text [] = Except.error Err.valueError := rfl

/--
Claim C6, counterexample: on vectors of lengths two and three, cosine
similarity fails with the Python ValueError of the sklearn pairwise-array
check, not with the DimensionMismatchError named by the specification.
-/
theorem claim6_counterexample :
    cosine_similarity_exc [(1 : ℝ), 0] [1, 0, 0] ≠ Except.error Err.dimensionMismatchError := by
  have h : cosine_similarity_exc [(1 : ℝ), 0] [1, 0, 0] = Except.error Err.valueError := by
    unfold cosine_similarity_exc
    rw [if_neg (by decide : ¬([(1 : ℝ), 0].length = [(1 : ℝ), 0, 0].length))]
  rw [h]
  intro hc
  exact Err.noConfusion (Except.error.inj hc)

/--
Claim C6 (amended): for every pair of vectors of differing lengths, cosine
similarity fails, with the Python ValueError of the sklearn dimension
check.
-/
theorem claim6_dim_mismatch_fails (a b : List ℝ) (h : a.length ≠ b.length) :
    cosine_similarity_exc a b = Except.error Err.valueError := by
  unfold cosine_similarity_exc
  rw [if_neg h]

/-- Concrete instance of the amended claim C6 on lengths one and two. -/
theorem claim6_witness :
    cosine_similarity_exc [(1 : ℝ)] [1, 0] = Except.error Err.valueError :=
  claim6_dim_mismatch_fails _ _ (by decide)

/--
Claim C3, counterexample: the zero vector paired with an equal-length
nonzero vector does not fail; sklearn silently returns the similarity
value 0, exactly what the claim says never happens, and in particular no
DegenerateInputError is raised.
-/
theorem claim3_counterexample :
    cosine_similarity_exc [(0 : ℝ), 0] [3, 4] = Except.ok 0 ∧
      cosine_similarity_exc [(0 : ℝ), 0] [3, 4] ≠ Except.error Err.degenerateInputError := by
  have h : cosine_similarity_exc [(0 : ℝ), 0] [3, 4] = Except.ok 0 := by
    unfold cosine_similarity_exc
    rw [if_pos (by decide : [(0 : ℝ), 0].length = [(3 : ℝ), 4].length)]
    rw [cos_sim_zero_left [(0 : ℝ), 0] [3, 4] (by
      intro x hx
      rcases List.mem_cons.mp hx with h1 | h1
      · exact h1
      · rcases List.mem_cons.mp h1 with h2 | h2
        · exact h2
        · simp at h2)]
  refine ⟨h, ?_⟩
  rw [h]
  intro hc
  exact Except.noConfusion hc

/--
Claim C3 (amended): for every pair of equal-dimension vectors of which at
least one is the zero vector, cosine similarity succeeds and silently
returns the similarity value 0: sklearn replaces the zero norm by one and
leaves the zero row unnormalised, and no DegenerateInputError exists in the
code.
-/
theorem claim3_zero_vector_silent_zero (a b : List ℝ) (hlen : a.length = b.length)
    (hz : (∀ x ∈ a, x = 0) ∨ (∀ x ∈ b, x = 0)) :
    cosine_similarity_exc a b = Except.ok 0 := by
  unfold cosine_similarity_exc
  rw [if_pos hlen]
  rcases hz with h | h
  · rw [cos_sim_zero_left a b h]
  · rw [cos_sim_zero_right a b h]

/-- Concrete instance of the amended claim C3 on the zero vector of dimension one. -/
theorem claim3_witness :
    cosine_similarity_exc [(0 : ℝ)] [5] = Except.ok 0 :=
  claim3_zero_vector_silent_zero _ _ (by decide)
    (Or.inl (by intro x hx; simpa using hx))

/--
Claim C5, counterexample: an anchors dict whose only label has an empty
example list is not rejected anywhere; classify_text runs to completion on
it and returns that label with the NaN aggregate score, so classification
is performed against such an anchor set and no ConfigurationError is
raised.
-/
theorem claim5_counterexample :
    classify_text egEmbed egText [(egLabelA, [])] =
      Except.ok (egLabelA, [(egLabelA, Val.nan)]) := rfl

/--
Claim C5 (amended): no construction-time validation exists; an anchor set
containing a label with an empty example list is accepted, and classify
proceeds, assigning that label the NaN score that np.mean produces on an
empty list, inside a successful result.
-/
theorem claim5_empty_examples_accepted (ge : String → List ℝ) (text : String)
    (anchors : List (String × List String)) (label : String)
    (hmem : (label, ([] : List String)) ∈ anchors)
    (hdim : ∀ p ∈ anchors, ∀ ex ∈ p.2, (ge ex).length = (ge text).length) :
    ∃ pred scores, classify_text ge text anchors = Except.ok (pred, scores) ∧
      (label, Val.nan) ∈ scores := by
  have hne : anchors ≠ [] := by
    intro h
    rw [h] at hmem
    simp at hmem
  obtain ⟨pred, hrun⟩ := classify_ok_shape ge text anchors hne hdim
  refine ⟨pred, _, hrun, ?_⟩
  exact List.mem_map.mpr ⟨(label, []), hmem, rfl⟩

/-- Concrete instance of the amended claim C5 on a one-label anchors dict with no examples. -/
theorem claim5_witness :
    ∃ pred scores, classify_text egEmbed egText [(egLabelA, [])] = Except.ok (pred, scores) ∧
      (egLabelA, Val.nan) ∈ scores :=
  claim5_empty_examples_accepted egEmbed egText [(egLabelA, [])] egLabelA
    (List.mem_singleton_self _) (by simp)

/--
Claim C7: for every nonzero vector, the self cosine similarity equals 1
exactly (hence within the stated 1e-6 tolerance), and every diagonal entry
of the self-similarity matrix of a list of nonzero rows equals 1.
-/
theorem claim7_self_similarity_diag (a : List ℝ) (ha : ∃ x ∈ a, x ≠ 0)
    (X : List (List ℝ)) (hX : ∀ r ∈ X, ∃ x ∈ r, x ≠ 0) :
    cos_sim a a = 1 ∧ |cos_sim a a - 1| ≤ 1e-6 ∧
      ∀ i : ℕ, i < X.length → ((similarity_matrix X).getD i []).getD i 0 = 1 := by
  have h1 := cos_sim_self a ha
  refine ⟨h1, by rw [h1]; norm_num, ?_⟩
  intro i hi
  have hXi : X[i]? = some (X.get ⟨i, hi⟩) := by
    rw [List.getElem?_eq_getElem hi]
    rfl
  have hrow : (similarity_matrix X).getD i [] =
      X.map fun c => cos_sim (X.get ⟨i, hi⟩) c := by
    unfold similarity_matrix
    rw [List.getD_eq_getElem?_getD, List.getElem?_map, hXi]
    rfl
  rw [hrow]
  have hentry : (X.map fun c => cos_sim (X.get ⟨i, hi⟩) c).getD i 0 =
      cos_sim (X.get ⟨i, hi⟩) (X.get ⟨i, hi⟩) := by
    rw [List.getD_eq_getElem?_getD, List.getElem?_map, hXi]
    rfl
  rw [hentry]
  exact cos_sim_self _ (hX _ (List.get_mem X i hi))

/-- Concrete instance of claim C7 on the unit vector of dimension one. -/
theorem claim7_witness :
    cos_sim [(1 : ℝ)] [(1 : ℝ)] = 1 ∧ |cos_sim [(1 : ℝ)] [(1 : ℝ)] - 1| ≤ 1e-6 ∧
      ∀ i : ℕ, i < [[(1 : ℝ)]].length →
        ((similarity_matrix [[(1 : ℝ)]]).getD i []).getD i 0 = 1 :=
  claim7_self_similarity_diag [(1 : ℝ)] ⟨1, List.mem_singleton_self 1, one_ne_zero⟩
    [[(1 : ℝ)]] (by
      intro r hr
      rw [List.mem_singleton] at hr
      subst hr
      exact ⟨1, List.mem_singleton_self 1, one_ne_zero⟩)

/--
Claim C9: when the query and all anchor example embeddings are nonzero
vectors of equal dimension and each label has at least one example, every
aggregate score in the mapping returned by classify is a number in the
closed interval between minus one and one.
-/
theorem claim9_scores_in_unit_interval (ge : String → List ℝ) (text : String)
    (anchors : List (String × List String))
    (hex : ∀ p ∈ anchors, p.2 ≠ [])
    (hdim : ∀ p ∈ anchors, ∀ ex ∈ p.2, (ge ex).length = (ge text).length)
    (hqnz : ∃ x ∈ ge text, x ≠ 0)
    (hanz : ∀ p ∈ anchors, ∀ ex ∈ p.2, ∃ x ∈ ge ex, x ≠ 0)
    (pred : String) (scores : List (String × Val))
    (hrun : classify_text ge text anchors = Except.ok (pred, scores)) :
    ∀ p ∈ scores, ∃ x : ℝ, p.2 = Val.num x ∧ -1 ≤ x ∧ x ≤ 1 := by
  cases hA : anchors with
  | nil =>
      rw [hA] at hrun
      exact Except.noConfusion
        ((show classify_text ge text [] = Except.error Err.valueError from rfl).symm.trans hrun)
  | cons a0 arest =>
      have hne : anchors ≠ [] := by
        rw [hA]
        exact List.cons_ne_nil a0 arest
      obtain ⟨pred0, pre, post, h1, h2, h3⟩ := classify_ok_spec ge text anchors hne hex hdim
      have hps := Except.ok.inj (h1.symm.trans hrun)
      have hscores : scores =
          (specMeanScores ge (ge text) anchors).map fun p => (p.1, Val.num p.2) :=
        (congrArg Prod.snd hps).symm
      subst hscores
      intro p hp
      obtain ⟨q, hq, hpq⟩ := List.mem_map.mp hp
      unfold specMeanScores at hq
      obtain ⟨p0, hp0, hq0⟩ := List.mem_map.mp hq
      have hmapne : (p0.2.map fun ex => cos_sim (ge text) (ge ex)) ≠ [] := fun h =>
        hex p0 hp0 (List.map_eq_nil_iff.mp h)
      have hbounds : ∀ x ∈ (p0.2.map fun ex => cos_sim (ge text) (ge ex)), -1 ≤ x ∧ x ≤ 1 := by
        intro x hx
        obtain ⟨ex, hex2, hxe⟩ := List.mem_map.mp hx
        rw [← hxe]
        exact cos_sim_bound (ge text) (ge ex) hqnz (hanz p0 hp0 ex hex2)
      have hb := mean_bound (p0.2.map fun ex => cos_sim (ge text) (ge ex)) hmapne hbounds
      rw [List.length_map] at hb
      refine ⟨q.2, by rw [← hpq], ?_, ?_⟩
      · rw [← hq0]
        exact hb.1
      · rw [← hq0]
        exact hb.2

/-- Concrete instance of claim C9 on a one-label anchors dict with a constant embedding provider. -/
theorem claim9_witness :
    ∃ x : ℝ, (egLabelA, npMean [cos_sim (egEmbed egText) (egEmbed egExampleA)]).2 = Val.num x ∧
      -1 ≤ x ∧ x ≤ 1 :=
  claim9_scores_in_unit_interval egEmbed egText [(egLabelA, [egExampleA])]
    (by simp) (by simp [egEmbed]) ⟨1, List.mem_singleton_self 1, one_ne_zero⟩
    (by
      intro p hp ex hex2
      exact ⟨1, List.mem_singleton_self 1, one_ne_zero⟩)
    egLabelA _ rfl
    (egLabelA, npMean [cos_sim (egEmbed egText) (egEmbed egExampleA)])
    (List.mem_singleton_self _)
